import Mathlib

/-!
Verification of the `license-key` library (src/src/lib.rs): a
license-key scheme with an 8-byte big-endian seed, an N-byte payload
derived from a pluggable keyed hash, and a 2-byte checksum, verified by
re-deriving only a subset of the payload bytes.

Shallow embedding conventions:
* `u8`/`u16`/`u64` values are `Nat`; bounds (`< 256`, `< 2^64`) appear as
  hypotheses exactly where the Rust types guarantee them.
* Byte buffers (`Vec<u8>`, `&[u8]`) are `List Nat`.
* Rust operations that can panic (slice indexing, `usize` underflow,
  `Result::unwrap`) get a second, `_checked` variant returning `Option`,
  where `none` models the panic; the primary definitions use total `Nat`
  arithmetic and agree with Rust on the inputs where Rust does not panic.
-/

/-- Constant SEED_BYTE_LENGTH from lib.rs. -/
def SEED_BYTE_LENGTH : Nat := 8

/-- Constant CHECKSUM_BYTE_LENGTH from lib.rs. -/
def CHECKSUM_BYTE_LENGTH : Nat := 2

/-- Constant SEGMENT_BYTE_LENGTH from lib.rs. -/
def SEGMENT_BYTE_LENGTH : Nat := 1

/-- The verification outcome enum `Status` from lib.rs. -/
inductive Status where
  | Valid
  | Invalid
  | Blocked
  | Forged
deriving DecidableEq, Repr

/-- Rust `u64::to_be_bytes`: the eight big-endian bytes of a 64-bit value. -/
def u64_to_be_bytes (n : Nat) : List Nat :=
  [n / 2 ^ 56 % 256, n / 2 ^ 48 % 256, n / 2 ^ 40 % 256, n / 2 ^ 32 % 256,
   n / 2 ^ 24 % 256, n / 2 ^ 16 % 256, n / 2 ^ 8 % 256, n % 256]

/-- Rust `u64::from_be_bytes`: big-endian recomposition of a byte list. -/
def u64_from_be_bytes (bs : List Nat) : Nat :=
  bs.foldl (fun acc b => acc * 256 + b) 0

/-- One iteration of the loop body of `calculate_checksum` in lib.rs:
`right += byte; if right > 0xFF { right -= 0xFF }` then
`left += right; if left > 0xFF { left -= 0xFF }`.  The `u16` additions
cannot overflow for `u8` inputs (both accumulators stay below 511), so
plain `Nat` arithmetic is exact here. -/
def checksum_step (acc : Nat × Nat) (byte : Nat) : Nat × Nat :=
  let right := acc.2 + byte
  let right := if right > 0xFF then right - 0xFF else right
  let left := acc.1 + right
  let left := if left > 0xFF then left - 0xFF else left
  (left, right)

/-- The free function `calculate_checksum` in lib.rs: fold `checksum_step`
from `left = 0x56`, `right = 0xAF`, then return
`((left << 8) + right).to_be_bytes()` as a 2-byte list.  The shift/add is
`u16` arithmetic, hence the explicit `% 65536`. -/
def calculate_checksum (key : List Nat) : List Nat :=
  let lr := key.foldl checksum_step (0x56, 0xAF)
  let v := (lr.1 * 256 + lr.2) % 65536
  [v / 256, v % 256]

/-- The struct `LicenseKey` from lib.rs: a byte buffer. -/
structure LicenseKey where
  bytes : List Nat
deriving DecidableEq, Repr

/-- Rust `LicenseKey::new`. -/
def LicenseKey.new (bytes : List Nat) : LicenseKey :=
  ⟨bytes⟩

/-- Rust `LicenseKey::get_bytes`. -/
def LicenseKey.get_bytes (key : LicenseKey) : List Nat :=
  key.bytes

/-- Rust `LicenseKey::get_byte`: index `8 + ordinal * 1`; `None` if
`index > len - 3`, otherwise the byte at `index`.  When the guard passes
and `len ≥ 3` the index is in bounds, so `getD` returns the actual byte;
(for `len < 3` Rust panics — see `LicenseKey.get_byte_checked`). -/
def LicenseKey.get_byte (key : LicenseKey) (ordinal : Nat) : Option Nat :=
  let index := SEED_BYTE_LENGTH + ordinal * SEGMENT_BYTE_LENGTH
  if index > key.bytes.length - 3 then
    none
  else
    some (key.bytes.getD index 0)

/-- Rust `LicenseKey::get_checksum`: the final `CHECKSUM_BYTE_LENGTH` bytes. -/
def LicenseKey.get_checksum (key : LicenseKey) : List Nat :=
  key.bytes.drop (key.bytes.length - CHECKSUM_BYTE_LENGTH)

/-- Rust `LicenseKey::get_seed`: big-endian parse of the first
`SEED_BYTE_LENGTH` bytes. -/
def LicenseKey.get_seed (key : LicenseKey) : Nat :=
  u64_from_be_bytes (key.bytes.take SEED_BYTE_LENGTH)

/-- Alias for the free function `calculate_checksum`, needed because the
method `LicenseKey::calculate_checksum` below shares its Rust name and
would otherwise capture the unqualified reference. -/
def checksum_of_slice : List Nat → List Nat :=
  calculate_checksum

/-- The method `LicenseKey::calculate_checksum`: checksum of all bytes
except the final `CHECKSUM_BYTE_LENGTH`. -/
def LicenseKey.calculate_checksum (key : LicenseKey) : List Nat :=
  checksum_of_slice (key.bytes.take (key.bytes.length - CHECKSUM_BYTE_LENGTH))

/-- The struct `Generator<T: KeyHasher>` from lib.rs.  The `KeyHasher`
trait object is a function `(seed, a, b, c) ↦ u8`. -/
structure Generator where
  hasher : Nat → Nat → Nat → Nat → Nat
  iv : List (Nat × Nat × Nat)

/-- Rust `Generator::generate`: the 8 big-endian seed bytes, then one hash byte
per IV triplet in order, then the 2 checksum bytes over the preceding
bytes. -/
def Generator.generate (g : Generator) (seed : Nat) : LicenseKey :=
  let input := u64_to_be_bytes seed ++
    g.iv.map (fun iv => g.hasher seed iv.1 iv.2.1 iv.2.2)
  let checksum := calculate_checksum input
  LicenseKey.new (input ++ checksum)

/-- The struct `ByteCheck` from lib.rs (`ordinal` is a `u8` in Rust). -/
structure ByteCheck where
  ordinal : Nat
  a : Nat
  b : Nat
  c : Nat
deriving DecidableEq, Repr

/-- Rust `ByteCheck::new`. -/
def ByteCheck.new (ordinal : Nat) (iv : Nat × Nat × Nat) : ByteCheck :=
  ⟨ordinal, iv.1, iv.2.1, iv.2.2⟩

/-- The struct `Verifier<T: KeyHasher>` from lib.rs. -/
structure Verifier where
  hasher : Nat → Nat → Nat → Nat → Nat
  checks : List ByteCheck
  blocklist : List Nat

/-- Rust `Verifier::new`: empty blocklist. -/
def Verifier.new (hasher : Nat → Nat → Nat → Nat → Nat)
    (checks : List ByteCheck) : Verifier :=
  ⟨hasher, checks, []⟩

/-- Rust `Verifier::block`: push a seed onto the blocklist. -/
def Verifier.block (v : Verifier) (seed : Nat) : Verifier :=
  ⟨v.hasher, v.checks, v.blocklist ++ [seed]⟩

/-- The `for check in self.checks` loop of `Verifier::verify`: first
absent byte short-circuits to `Invalid`, first mismatching byte to
`Forged`, exhausting the list yields `Valid`. -/
def verifyChecks (hasher : Nat → Nat → Nat → Nat → Nat) (seed : Nat)
    (key : LicenseKey) : List ByteCheck → Status
  | [] => Status.Valid
  | check :: rest =>
    match key.get_byte check.ordinal with
    | some value =>
      if value ≠ hasher seed check.a check.b check.c then
        Status.Forged
      else
        verifyChecks hasher seed key rest
    | none => Status.Invalid

/-- Rust `Verifier::verify`: checksum gate, then blocklist scan, then the byte
checks in configuration order. -/
def Verifier.verify (v : Verifier) (key : LicenseKey) : Status :=
  let checksum := key.calculate_checksum
  if checksum ≠ key.get_checksum then
    Status.Invalid
  else
    let seed := key.get_seed
    if seed ∈ v.blocklist then
      Status.Blocked
    else
      verifyChecks v.hasher seed key v.checks

/-! ## Checked variants

Each Rust operation that can panic on a too-short buffer gets an `Option`
variant where `none` models the panic: `usize` subtraction underflow
(debug) or the resulting out-of-bounds slice/index (release) both abort
rather than return, so both map to `none`. -/

/-- Rust `LicenseKey::get_byte` with panics explicit: for `len < 3` the
expression `self.bytes.len() - 3` underflows (debug) or the subsequent
`self.bytes[index]` with `index ≥ 8 > len` is out of bounds (release). -/
def LicenseKey.get_byte_checked (key : LicenseKey) (ordinal : Nat) :
    Option (Option Nat) :=
  let index := SEED_BYTE_LENGTH + ordinal * SEGMENT_BYTE_LENGTH
  if key.bytes.length < 3 then
    none
  else if index > key.bytes.length - 3 then
    some none
  else if h : index < key.bytes.length then
    some (some (key.bytes.get ⟨index, h⟩))
  else
    none

/-- Rust `LicenseKey::get_checksum` with the panic of `bytes[len - 2..]` for
`len < 2` explicit. -/
def LicenseKey.get_checksum_checked (key : LicenseKey) : Option (List Nat) :=
  if key.bytes.length < CHECKSUM_BYTE_LENGTH then
    none
  else
    some (key.bytes.drop (key.bytes.length - CHECKSUM_BYTE_LENGTH))

/-- Rust `LicenseKey::get_seed` with the panic of `bytes[0..8]` for `len < 8`
explicit (the `try_into().unwrap()` then always succeeds on an 8-byte
slice). -/
def LicenseKey.get_seed_checked (key : LicenseKey) : Option Nat :=
  if key.bytes.length < SEED_BYTE_LENGTH then
    none
  else
    some (u64_from_be_bytes (key.bytes.take SEED_BYTE_LENGTH))

/-- Method `LicenseKey::calculate_checksum` with the panic of
`bytes[0..len - 2]` for `len < 2` explicit. -/
def LicenseKey.calculate_checksum_checked (key : LicenseKey) :
    Option (List Nat) :=
  if key.bytes.length < CHECKSUM_BYTE_LENGTH then
    none
  else
    some (checksum_of_slice (key.bytes.take (key.bytes.length - CHECKSUM_BYTE_LENGTH)))

/-- The byte-check loop of `Verifier::verify` over the checked
`get_byte`. -/
def verifyChecks_checked (hasher : Nat → Nat → Nat → Nat → Nat) (seed : Nat)
    (key : LicenseKey) : List ByteCheck → Option Status
  | [] => some Status.Valid
  | check :: rest =>
    match key.get_byte_checked check.ordinal with
    | none => none
    | some (some value) =>
      if value ≠ hasher seed check.a check.b check.c then
        some Status.Forged
      else
        verifyChecks_checked hasher seed key rest
    | some none => some Status.Invalid

/-- Rust `Verifier::verify` with every panicking sub-operation explicit, in the
exact evaluation order of the Rust source. -/
def Verifier.verify_checked (v : Verifier) (key : LicenseKey) : Option Status :=
  match key.calculate_checksum_checked with
  | none => none
  | some checksum =>
    match key.get_checksum_checked with
    | none => none
    | some stored =>
      if checksum ≠ stored then
        some Status.Invalid
      else
        match key.get_seed_checked with
        | none => none
        | some seed =>
          if seed ∈ v.blocklist then
            some Status.Blocked
          else
            verifyChecks_checked v.hasher seed key v.checks

/-! ## Boundary codec (the `hex` crate and `HexFormat`)

Rust strings are byte sequences and the `hex` crate inspects the input
bytes one by one, so boundary text is modelled as a `List Nat` of byte
values.  `hex::decode` returns a `Result`; `none` models the error case. -/

/-- Value of one ASCII hex-digit byte, as in the `hex` crate: `0`–`9`,
`a`–`f`, `A`–`F`; anything else is an `InvalidHexCharacter` error. -/
def hex_digit_val (b : Nat) : Option Nat :=
  if 48 ≤ b ∧ b ≤ 57 then some (b - 48)
  else if 97 ≤ b ∧ b ≤ 102 then some (b - 97 + 10)
  else if 65 ≤ b ∧ b ≤ 70 then some (b - 65 + 10)
  else none

/-- Rust `hex::decode`: fails on odd length (the trailing single byte) or on
any non-hex-digit byte; otherwise each digit pair becomes one output
byte, high nibble first. -/
def hex_decode : List Nat → Option (List Nat)
  | [] => some []
  | [_] => none
  | hi :: lo :: rest =>
    match hex_digit_val hi, hex_digit_val lo, hex_decode rest with
    | some h, some l, some r => some ((h * 16 + l) :: r)
    | _, _, _ => none

/-- The lowercase hex digit for a nibble, as in `hex::encode`'s
`"0123456789abcdef"` table. -/
def hex_digit_char (n : Nat) : Nat :=
  if n < 10 then 48 + n else 97 + (n - 10)

/-- Rust `hex::encode`: each byte becomes its high nibble's digit then its low
nibble's digit. -/
def hex_encode : List Nat → List Nat
  | [] => []
  | b :: rest => hex_digit_char (b / 16) :: hex_digit_char (b % 16) :: hex_encode rest

/-- Rust `HexFormat::serialize`: `hex::encode(key.get_bytes())`. -/
def HexFormat.serialize (key : LicenseKey) : List Nat :=
  hex_encode key.get_bytes

/-- Rust `HexFormat::deserialize`: `hex::decode(input).unwrap()` — `none`
models the propagated decode failure on malformed input. -/
def HexFormat.deserialize (input : List Nat) : Option (List Nat) :=
  hex_decode input

/-- Rust `LicenseKey::parse::<HexFormat>`: wrap the deserialized bytes in
`LicenseKey::new`; `none` models the propagated decode failure, before
any `LicenseKey` value exists. -/
def LicenseKey.parse (input : List Nat) : Option LicenseKey :=
  (HexFormat.deserialize input).map LicenseKey.new

/-- Well-formed boundary text: even length and every byte a hex digit. -/
def wellFormedHex (input : List Nat) : Prop :=
  input.length % 2 = 0 ∧ ∀ b ∈ input, (hex_digit_val b).isSome = true

instance (input : List Nat) : Decidable (wellFormedHex input) := by
  unfold wellFormedHex
  infer_instance

/-! ## Reference definitions written from the spec's words

These definitions follow the specification text (spec.md §4.1, §4.2,
§4.4) rather than the Rust source; the refinement theorems below compare
them with the source-derived definitions above. -/

/-- Reference checksum step from the spec §4.1: `right = right + b`,
subtract 255 if the result exceeds 255; then `left = left + right`,
subtract 255 if the result exceeds 255. -/
def checksum_reference_step (acc : Nat × Nat) (b : Nat) : Nat × Nat :=
  let right := acc.2 + b
  let right := if right > 255 then right - 255 else right
  let left := acc.1 + right
  let left := if left > 255 then left - 255 else left
  (left, right)

/-- Reference checksum from the spec §4.1: start `left = 0x56`,
`right = 0xAF`, run the step over the input in order, and return the two
bytes `(left, right)` in big-endian order (left high, right low). -/
def checksum_reference (input : List Nat) : List Nat :=
  let lr := input.foldl checksum_reference_step (0x56, 0xAF)
  [lr.1, lr.2]

/-- Reference payload-byte lookup from the spec §4.2: byte index
`8 + ordinal`, absent when that index falls at or beyond `length − 2`. -/
def payload_byte_reference (bytes : List Nat) (ordinal : Nat) : Option Nat :=
  if bytes.length - 2 ≤ 8 + ordinal then
    none
  else
    some (bytes.getD (8 + ordinal) 0)

/-- Reference byte-check loop from the spec §4.4 step 3: in configuration
order, an absent payload byte yields `Invalid`, a payload byte differing
from `hash(seed, a, b, c)` yields `Forged`; exhausting the checks yields
`Valid`. -/
def checks_reference (hasher : Nat → Nat → Nat → Nat → Nat) (seed : Nat)
    (bytes : List Nat) : List ByteCheck → Status
  | [] => Status.Valid
  | c :: rest =>
    match payload_byte_reference bytes c.ordinal with
    | none => Status.Invalid
    | some value =>
      if value ≠ hasher seed c.a c.b c.c then
        Status.Forged
      else
        checks_reference hasher seed bytes rest

/-- Reference decision procedure from the spec §4.4: checksum over all
bytes except the final 2 compared with the final 2 bytes, else blocklist
membership of the big-endian seed, else the byte-check loop. -/
def verify_reference (v : Verifier) (key : LicenseKey) : Status :=
  if calculate_checksum (key.bytes.take (key.bytes.length - 2))
      ≠ key.bytes.drop (key.bytes.length - 2) then
    Status.Invalid
  else if u64_from_be_bytes (key.bytes.take 8) ∈ v.blocklist then
    Status.Blocked
  else
    checks_reference v.hasher (u64_from_be_bytes (key.bytes.take 8))
      key.bytes v.checks

/-! ## Helper lemmas -/

/-- Rust `calculate_checksum` always returns exactly two bytes. -/
lemma calculate_checksum_length (l : List Nat) :
    (calculate_checksum l).length = 2 :=
  rfl

/-- One checksum step keeps both accumulators at or below 255 when the
input byte is a `u8`. -/
lemma checksum_step_bound (l r b : Nat) (hl : l ≤ 255) (hr : r ≤ 255)
    (hb : b < 256) :
    (checksum_step (l, r) b).1 ≤ 255 ∧ (checksum_step (l, r) b).2 ≤ 255 := by
  simp only [checksum_step]
  split <;> split <;> constructor <;> omega

/-- The checksum fold keeps both accumulators at or below 255 for `u8`
input bytes. -/
lemma checksum_fold_bound (bytes : List Nat) (l r : Nat) (hl : l ≤ 255)
    (hr : r ≤ 255) (hb : ∀ b ∈ bytes, b < 256) :
    (bytes.foldl checksum_step (l, r)).1 ≤ 255 ∧
    (bytes.foldl checksum_step (l, r)).2 ≤ 255 := by
  induction bytes generalizing l r with
  | nil => exact ⟨hl, hr⟩
  | cons b rest ih =>
    rw [List.foldl_cons]
    have hb0 : b < 256 := hb b (by simp)
    have hstep := checksum_step_bound l r b hl hr hb0
    have hpair : checksum_step (l, r) b
        = ((checksum_step (l, r) b).1, (checksum_step (l, r) b).2) := rfl
    rw [hpair]
    exact ih _ _ hstep.1 hstep.2 (fun x hx => hb x (by simp [hx]))

/-- Claim C3: for every byte sequence (all elements `u8`),
`calculate_checksum` equals the spec's reference recurrence — start
`left = 0x56`, `right = 0xAF`, per byte add-and-reduce by 255, result
`(left, right)` big-endian — and both accumulators stay within
`0..255`. -/
theorem calculate_checksum_eq_reference (key : List Nat)
    (hb : ∀ b ∈ key, b < 256) :
    calculate_checksum key = checksum_reference key ∧
    (key.foldl checksum_step (0x56, 0xAF)).1 ≤ 255 ∧
    (key.foldl checksum_step (0x56, 0xAF)).2 ≤ 255 := by
  have hbound := checksum_fold_bound key 0x56 0xAF (by omega) (by omega) hb
  refine ⟨?_, hbound.1, hbound.2⟩
  have hstep : checksum_reference_step = checksum_step := rfl
  unfold calculate_checksum checksum_reference
  rw [hstep]
  rcases hbound with ⟨h1, h2⟩
  have hv : (key.foldl checksum_step (0x56, 0xAF)).1 * 256
      + (key.foldl checksum_step (0x56, 0xAF)).2 < 65536 := by omega
  simp only [Nat.mod_eq_of_lt hv, List.cons.injEq, and_true]
  constructor <;> omega

/-- Witness for C3 at the concrete byte sequence `[1, 250, 77]`. -/
theorem calculate_checksum_eq_reference_witness :
    calculate_checksum [1, 250, 77] = checksum_reference [1, 250, 77] ∧
    ([1, 250, 77].foldl checksum_step (0x56, 0xAF)).1 ≤ 255 ∧
    ([1, 250, 77].foldl checksum_step (0x56, 0xAF)).2 ≤ 255 :=
  calculate_checksum_eq_reference [1, 250, 77] (by decide)

/-- Claim C4: for every seed and IV list (including the empty list),
`generate` returns a key of exactly `8 + N + 2` bytes: the 8 big-endian
seed bytes, then one `hash(seed, a, b, c)` byte per triplet in list
order, then the 2 checksum bytes over the preceding `8 + N` bytes. -/
theorem generate_structure (hasher : Nat → Nat → Nat → Nat → Nat)
    (V : List (Nat × Nat × Nat)) (seed : Nat) :
    ((Generator.mk hasher V).generate seed).bytes
      = u64_to_be_bytes seed
        ++ V.map (fun t => hasher seed t.1 t.2.1 t.2.2)
        ++ calculate_checksum (u64_to_be_bytes seed
            ++ V.map (fun t => hasher seed t.1 t.2.1 t.2.2)) ∧
    ((Generator.mk hasher V).generate seed).bytes.length = 8 + V.length + 2 ∧
    ((Generator.mk hasher V).generate seed).bytes.take 8
      = u64_to_be_bytes seed ∧
    ((Generator.mk hasher V).generate seed).bytes.drop (8 + V.length)
      = calculate_checksum
          (((Generator.mk hasher V).generate seed).bytes.take (8 + V.length)) := by
  have hbytes : ((Generator.mk hasher V).generate seed).bytes
      = (u64_to_be_bytes seed ++ V.map (fun t => hasher seed t.1 t.2.1 t.2.2))
        ++ calculate_checksum (u64_to_be_bytes seed
            ++ V.map (fun t => hasher seed t.1 t.2.1 t.2.2)) := rfl
  have hlen8 : (u64_to_be_bytes seed).length = 8 := rfl
  have hlen_input : (u64_to_be_bytes seed
      ++ V.map (fun t => hasher seed t.1 t.2.1 t.2.2)).length = 8 + V.length := by
    simp [hlen8]
  refine ⟨hbytes, ?_, ?_, ?_⟩
  · rw [hbytes]
    simp [calculate_checksum_length, hlen8]
    omega
  · rw [hbytes, List.append_assoc, List.take_left' hlen8]
  · rw [hbytes, List.drop_left' hlen_input, List.take_left' hlen_input]

/-- Claim C10: a Verifier constructed with an empty ByteCheck list (and
any blocklist accumulated through `block`) never returns `Forged`, and on
every key of length at least 10 whose stored checksum matches the
recomputed one and whose seed is not blocked it returns `Valid`. -/
theorem verify_no_checks (hasher : Nat → Nat → Nat → Nat → Nat)
    (blocklist : List Nat) (key : LicenseKey) :
    (Verifier.mk hasher [] blocklist).verify key ≠ Status.Forged ∧
    (10 ≤ key.bytes.length →
      key.calculate_checksum = key.get_checksum →
      key.get_seed ∉ blocklist →
      (Verifier.mk hasher [] blocklist).verify key = Status.Valid) := by
  constructor
  · simp only [Verifier.verify, verifyChecks]
    split_ifs <;> simp
  · intro hlen hchk hnb
    simp only [Verifier.verify, verifyChecks, ne_eq, hchk, not_true_eq_false,
      if_false]
    exact if_neg hnb

/-- Witness for C10: the no-payload key generated from seed 5 with the
constant-zero hasher is `Valid` and not `Forged` for a check-free
verifier. -/
theorem verify_no_checks_witness :
    (Verifier.mk (fun _ _ _ _ => 0) [] []).verify
        ((Generator.mk (fun _ _ _ _ => 0) []).generate 5) = Status.Valid ∧
    (Verifier.mk (fun _ _ _ _ => 0) [] []).verify
        ((Generator.mk (fun _ _ _ _ => 0) []).generate 5) ≠ Status.Forged :=
  ⟨(verify_no_checks (fun _ _ _ _ => 0) []
      ((Generator.mk (fun _ _ _ _ => 0) []).generate 5)).2
      (by decide) (by decide) (by decide),
   (verify_no_checks (fun _ _ _ _ => 0) []
      ((Generator.mk (fun _ _ _ _ => 0) []).generate 5)).1⟩

/-- For buffers of at least 3 bytes, `get_byte` agrees with the spec's
payload-byte lookup: the guard `index > len - 3` is exactly
`len - 2 ≤ index`. -/
lemma get_byte_eq_reference (key : LicenseKey) (ordinal : Nat)
    (h : 3 ≤ key.bytes.length) :
    key.get_byte ordinal = payload_byte_reference key.bytes ordinal := by
  simp only [LicenseKey.get_byte, payload_byte_reference, SEED_BYTE_LENGTH,
    SEGMENT_BYTE_LENGTH, Nat.mul_one]
  split_ifs with h1 h2 <;> first | rfl | omega

/-- For buffers of at least 3 bytes, the byte-check loop agrees with the
spec's reference loop. -/
lemma verifyChecks_eq_reference (hasher : Nat → Nat → Nat → Nat → Nat)
    (seed : Nat) (key : LicenseKey) (checks : List ByteCheck)
    (h : 3 ≤ key.bytes.length) :
    verifyChecks hasher seed key checks
      = checks_reference hasher seed key.bytes checks := by
  induction checks with
  | nil => rfl
  | cons c rest ih =>
    rw [verifyChecks, checks_reference, ← get_byte_eq_reference key c.ordinal h]
    cases key.get_byte c.ordinal with
    | none => rfl
    | some value =>
      by_cases hv : value = hasher seed c.a c.b c.c
      · simp only [hv, ne_eq, not_true_eq_false, if_false, ih]
      · simp only [ne_eq, hv, not_false_eq_true, if_true]

/-- Claim C2: for every key of at least 10 bytes, `verify` follows the
spec's short-circuiting order exactly: checksum mismatch over all bytes
but the final 2 gives `Invalid`; else a blocklisted seed gives `Blocked`
regardless of the configured ByteChecks; else the checks run in
configuration order with absent bytes giving `Invalid` and mismatching
bytes giving `Forged`; else `Valid`. -/
theorem verify_eq_reference (v : Verifier) (key : LicenseKey)
    (h : 10 ≤ key.bytes.length) :
    v.verify key = verify_reference v key := by
  simp only [Verifier.verify, verify_reference, LicenseKey.calculate_checksum,
    checksum_of_slice, LicenseKey.get_checksum, LicenseKey.get_seed,
    CHECKSUM_BYTE_LENGTH, SEED_BYTE_LENGTH]
  split_ifs <;> first
    | rfl
    | exact verifyChecks_eq_reference v.hasher _ key v.checks (by omega)

/-- Witness for C2 at a concrete 10-byte key and a one-check verifier. -/
theorem verify_eq_reference_witness :
    (Verifier.mk (fun s a b c => (s + a + b + c) % 256)
        [ByteCheck.new 0 (1, 2, 3)] [7]).verify
      (LicenseKey.new [0, 0, 0, 0, 0, 0, 0, 0, 9, 9])
    = verify_reference
        (Verifier.mk (fun s a b c => (s + a + b + c) % 256)
          [ByteCheck.new 0 (1, 2, 3)] [7])
        (LicenseKey.new [0, 0, 0, 0, 0, 0, 0, 0, 9, 9]) :=
  verify_eq_reference _ _ (by decide)

/-- If every check before some check passes (present and matching) and
that check's ordinal is absent, the byte-check loop returns `Invalid`. -/
lemma verifyChecks_absent (hasher : Nat → Nat → Nat → Nat → Nat)
    (seed : Nat) (key : LicenseKey) (pre : List ByteCheck) (c : ByteCheck)
    (post : List ByteCheck)
    (hpre : ∀ p ∈ pre, key.get_byte p.ordinal = some (hasher seed p.a p.b p.c))
    (hc : key.get_byte c.ordinal = none) :
    verifyChecks hasher seed key (pre ++ c :: post) = Status.Invalid := by
  induction pre with
  | nil => rw [List.nil_append, verifyChecks, hc]
  | cons p rest ih =>
    rw [List.cons_append, verifyChecks, hpre p (by simp)]
    simp only [ne_eq, not_true_eq_false, if_false]
    exact ih (fun q hq => hpre q (by simp [hq]))

/-- Claim C6: for every key of length `L ≥ 10`, `get_byte ordinal` is
`none` exactly when `8 + ordinal` falls at or beyond `L - 2`, and is
`some` of the byte at index `8 + ordinal` otherwise; and during `verify`,
a configured check whose ordinal is absent in this sense yields
`Status.Invalid` (the preceding checks having passed), not a fault. -/
theorem get_byte_absent_invalid (key : LicenseKey)
    (hlen : 10 ≤ key.bytes.length) :
    (∀ ordinal : Nat,
      (key.get_byte ordinal = none ↔ key.bytes.length - 2 ≤ 8 + ordinal) ∧
      (8 + ordinal < key.bytes.length - 2 →
        key.get_byte ordinal = some (key.bytes.getD (8 + ordinal) 0))) ∧
    (∀ (v : Verifier) (pre : List ByteCheck) (c : ByteCheck)
        (post : List ByteCheck),
      key.calculate_checksum = key.get_checksum →
      key.get_seed ∉ v.blocklist →
      v.checks = pre ++ c :: post →
      (∀ p ∈ pre,
        key.get_byte p.ordinal = some (v.hasher key.get_seed p.a p.b p.c)) →
      key.get_byte c.ordinal = none →
      v.verify key = Status.Invalid) := by
  constructor
  · intro ordinal
    constructor
    · simp only [LicenseKey.get_byte, SEED_BYTE_LENGTH, SEGMENT_BYTE_LENGTH,
        Nat.mul_one]
      split_ifs with h1
      · simp only [true_iff]
        omega
      · simp only [false_iff, reduceCtorEq]
        omega
    · intro h
      simp only [LicenseKey.get_byte, SEED_BYTE_LENGTH, SEGMENT_BYTE_LENGTH,
        Nat.mul_one]
      rw [if_neg (by omega)]
  · intro v pre c post hchk hnb hchecks hpre hc
    simp only [Verifier.verify, ne_eq, hchk, not_true_eq_false, if_false,
      if_neg hnb, hchecks]
    exact verifyChecks_absent v.hasher key.get_seed key pre c post hpre hc

/-- Witness for C6: the empty-payload key generated from seed 0 against a
check at ordinal 0, which is out of range. -/
theorem get_byte_absent_invalid_witness :
    (Verifier.mk (fun _ _ _ _ => 0) [ByteCheck.new 0 (0, 0, 0)] []).verify
      ((Generator.mk (fun _ _ _ _ => 0) []).generate 0) = Status.Invalid :=
  (get_byte_absent_invalid ((Generator.mk (fun _ _ _ _ => 0) []).generate 0)
    (by decide)).2
    (Verifier.mk (fun _ _ _ _ => 0) [ByteCheck.new 0 (0, 0, 0)] [])
    [] (ByteCheck.new 0 (0, 0, 0)) []
    (by decide) (by decide) rfl (by simp) (by decide)

/-- For buffers of at least 3 bytes, the checked `get_byte` never panics
and agrees with the total model. -/
lemma get_byte_checked_eq (key : LicenseKey) (ordinal : Nat)
    (h : 3 ≤ key.bytes.length) :
    key.get_byte_checked ordinal = some (key.get_byte ordinal) := by
  simp only [LicenseKey.get_byte_checked, LicenseKey.get_byte]
  rw [if_neg (by omega)]
  split_ifs with h1 h2
  · rfl
  · rw [List.getD_eq_getElem _ _ h2]
    simp [List.get_eq_getElem]
  · exfalso
    simp only [SEED_BYTE_LENGTH, SEGMENT_BYTE_LENGTH, Nat.mul_one] at h1 h2
    omega

/-- For buffers of at least 3 bytes, the checked byte-check loop never
panics and agrees with the total model. -/
lemma verifyChecks_checked_eq (hasher : Nat → Nat → Nat → Nat → Nat)
    (seed : Nat) (key : LicenseKey) (checks : List ByteCheck)
    (h : 3 ≤ key.bytes.length) :
    verifyChecks_checked hasher seed key checks
      = some (verifyChecks hasher seed key checks) := by
  induction checks with
  | nil => rfl
  | cons c rest ih =>
    rw [verifyChecks_checked, verifyChecks, get_byte_checked_eq key c.ordinal h]
    cases key.get_byte c.ordinal with
    | none => rfl
    | some value =>
      by_cases hv : value = hasher seed c.a c.b c.c
      · simp only [hv, ne_eq, not_true_eq_false, if_false, ih]
      · simp only [ne_eq, hv, not_false_eq_true, if_true]

/-- Claim C7: for every key of at least 10 bytes, `verify` and every core
computation it uses (`get_seed`, `get_byte` at every ordinal,
`get_checksum`, the checksum over the prefix) is total: the checked
model, in which `none` marks any panic, out-of-bounds access or `usize`
underflow, returns `some` of the total model's answer. -/
theorem verify_checked_total (v : Verifier) (key : LicenseKey)
    (h : 10 ≤ key.bytes.length) :
    v.verify_checked key = some (v.verify key) := by
  simp only [Verifier.verify_checked, Verifier.verify,
    LicenseKey.calculate_checksum_checked, LicenseKey.calculate_checksum,
    LicenseKey.get_checksum_checked, LicenseKey.get_checksum,
    LicenseKey.get_seed_checked, LicenseKey.get_seed, CHECKSUM_BYTE_LENGTH,
    SEED_BYTE_LENGTH]
  rw [if_neg (by omega), if_neg (by omega), if_neg (by omega)]
  dsimp only
  split_ifs <;> first
    | rfl
    | exact verifyChecks_checked_eq v.hasher _ key v.checks (by omega)

/-- Witness for C7 at a concrete 10-byte key. -/
theorem verify_checked_total_witness :
    (Verifier.mk (fun s a b c => (s + a + b + c) % 256)
        [ByteCheck.new 3 (4, 5, 6)] [2]).verify_checked
      (LicenseKey.new [1, 2, 3, 4, 5, 6, 7, 8, 9, 10])
    = some ((Verifier.mk (fun s a b c => (s + a + b + c) % 256)
        [ByteCheck.new 3 (4, 5, 6)] [2]).verify
      (LicenseKey.new [1, 2, 3, 4, 5, 6, 7, 8, 9, 10])) :=
  verify_checked_total _ _ (by decide)

/-- Rust `u64::to_be_bytes` always yields eight bytes. -/
lemma u64_to_be_bytes_length (n : Nat) : (u64_to_be_bytes n).length = 8 :=
  rfl

/-- Big-endian decomposition then recomposition is the identity on 64-bit
values. -/
lemma u64_roundtrip (s : Nat) (h : s < 2 ^ 64) :
    u64_from_be_bytes (u64_to_be_bytes s) = s := by
  simp only [u64_to_be_bytes, u64_from_be_bytes, List.foldl_cons,
    List.foldl_nil]
  omega

/-- The recomputed checksum of a key built as `input ++ cks` with a
2-byte tail is the checksum of `input`. -/
lemma calc_checksum_append (input cks : List Nat) (h2 : cks.length = 2) :
    (LicenseKey.new (input ++ cks)).calculate_checksum
      = calculate_checksum input := by
  simp only [LicenseKey.calculate_checksum, checksum_of_slice,
    LicenseKey.new, CHECKSUM_BYTE_LENGTH, List.length_append, h2,
    Nat.add_sub_cancel]
  rw [List.take_left]

/-- The stored checksum of a key built as `input ++ cks` with a 2-byte
tail is `cks`. -/
lemma get_checksum_append (input cks : List Nat) (h2 : cks.length = 2) :
    (LicenseKey.new (input ++ cks)).get_checksum = cks := by
  simp only [LicenseKey.get_checksum, LicenseKey.new, CHECKSUM_BYTE_LENGTH,
    List.length_append, h2, Nat.add_sub_cancel]
  exact List.drop_left input cks

/-- The seed of a key whose buffer starts with the eight big-endian seed
bytes. -/
lemma get_seed_append (seed : Nat) (rest : List Nat) :
    (LicenseKey.new (u64_to_be_bytes seed ++ rest)).get_seed
      = u64_from_be_bytes (u64_to_be_bytes seed) := by
  simp only [LicenseKey.get_seed, LicenseKey.new, SEED_BYTE_LENGTH]
  rw [List.take_left' (u64_to_be_bytes_length seed)]

/-- On a freshly generated key, every check whose ordinal is within the
IV list and whose triplet matches the IV entry at that ordinal passes,
so the loop ends in `Valid`. -/
lemma verifyChecks_generate_valid (hasher : Nat → Nat → Nat → Nat → Nat)
    (V : List (Nat × Nat × Nat)) (seed : Nat) (checks : List ByteCheck)
    (hchecks : ∀ c ∈ checks, c.ordinal < V.length ∧
      (c.a, c.b, c.c) = V.getD c.ordinal (0, 0, 0)) :
    verifyChecks hasher seed ((Generator.mk hasher V).generate seed) checks
      = Status.Valid := by
  induction checks with
  | nil => rfl
  | cons c rest ih =>
    obtain ⟨hord, htrip⟩ := hchecks c (by simp)
    have hlen : ((Generator.mk hasher V).generate seed).bytes.length
        = 8 + V.length + 2 := by
      simp [Generator.generate, LicenseKey.new, calculate_checksum_length,
        u64_to_be_bytes_length]
      omega
    have hbyte : ((Generator.mk hasher V).generate seed).get_byte c.ordinal
        = some (hasher seed c.a c.b c.c) := by
      have hblen : ((Generator.mk hasher V).generate seed).bytes
          = (u64_to_be_bytes seed
              ++ V.map (fun t => hasher seed t.1 t.2.1 t.2.2))
            ++ calculate_checksum (u64_to_be_bytes seed
              ++ V.map (fun t => hasher seed t.1 t.2.1 t.2.2)) := rfl
      simp only [LicenseKey.get_byte, SEED_BYTE_LENGTH, SEGMENT_BYTE_LENGTH,
        Nat.mul_one]
      rw [if_neg (by rw [hlen]; omega)]
      rw [hblen, List.getD_append _ _ _ _
          (by simp [u64_to_be_bytes_length]; omega),
        List.getD_append_right _ _ _ _ (by simp [u64_to_be_bytes_length])]
      simp only [u64_to_be_bytes_length, Nat.add_sub_cancel_left]
      rw [List.getD_eq_getElem _ _ (by simpa using hord),
        List.getElem_map]
      rw [List.getD_eq_getElem _ _ hord] at htrip
      rw [← htrip]
    rw [verifyChecks, hbyte]
    simp only [ne_eq, not_true_eq_false, if_false]
    exact ih (fun q hq => hchecks q (by simp [hq]))

/-- Claim C1: for every 64-bit seed, every IV triplet list, and every
hasher shared by generator and verifier, verifying `generate(seed)` with
a Verifier whose ByteChecks pair ordinals of the IV list with the
matching triplets and whose blocklist is empty returns `Valid`. -/
theorem verify_generate_valid (hasher : Nat → Nat → Nat → Nat → Nat)
    (V : List (Nat × Nat × Nat)) (checks : List ByteCheck) (seed : Nat)
    (hseed : seed < 2 ^ 64)
    (hchecks : ∀ c ∈ checks, c.ordinal < V.length ∧
      (c.a, c.b, c.c) = V.getD c.ordinal (0, 0, 0)) :
    (Verifier.mk hasher checks []).verify
      ((Generator.mk hasher V).generate seed) = Status.Valid := by
  have hkey : (Generator.mk hasher V).generate seed
      = LicenseKey.new ((u64_to_be_bytes seed
          ++ V.map (fun t => hasher seed t.1 t.2.1 t.2.2))
        ++ calculate_checksum (u64_to_be_bytes seed
          ++ V.map (fun t => hasher seed t.1 t.2.1 t.2.2))) := rfl
  simp only [Verifier.verify]
  rw [hkey, calc_checksum_append _ _ (calculate_checksum_length _),
    get_checksum_append _ _ (calculate_checksum_length _)]
  simp only [ne_eq, not_true_eq_false, if_false, List.not_mem_nil,
    if_false]
  rw [List.append_assoc, get_seed_append, u64_roundtrip seed hseed,
    ← List.append_assoc, ← hkey]
  exact verifyChecks_generate_valid hasher V seed checks hchecks

/-- Witness for C1: seed 5, one IV triplet, one matching check at
ordinal 0. -/
theorem verify_generate_valid_witness :
    (Verifier.mk (fun s a b c => (s + a + b + c) % 256)
        [ByteCheck.new 0 (1, 2, 3)] []).verify
      ((Generator.mk (fun s a b c => (s + a + b + c) % 256)
        [(1, 2, 3)]).generate 5) = Status.Valid :=
  verify_generate_valid (fun s a b c => (s + a + b + c) % 256)
    [(1, 2, 3)] [ByteCheck.new 0 (1, 2, 3)] 5 (by decide) (by decide)

/-- Decoding the hex digit of a nibble recovers the nibble. -/
lemma hex_digit_val_char (n : Nat) (h : n < 16) :
    hex_digit_val (hex_digit_char n) = some n := by
  interval_cases n <;> rfl

/-- Round-trip of the hex codec on byte lists. -/
lemma hex_decode_encode (bs : List Nat) (hb : ∀ b ∈ bs, b < 256) :
    hex_decode (hex_encode bs) = some bs := by
  induction bs with
  | nil => rfl
  | cons b rest ih =>
    have h1 : b / 16 < 16 := by
      have := hb b (by simp)
      omega
    have h2 : b % 16 < 16 := Nat.mod_lt _ (by omega)
    rw [hex_encode, hex_decode, hex_digit_val_char _ h1,
      hex_digit_val_char _ h2, ih (fun x hx => hb x (by simp [hx]))]
    simp only [Option.some.injEq, List.cons.injEq, and_true]
    omega

/-- Claim C8: for every key whose bytes are `u8` values (as Rust's
`Vec<u8>` guarantees), deserializing the hex text produced by
serializing the key returns exactly `get_bytes()`, including the
10-byte empty-payload case. -/
theorem hex_roundtrip (key : LicenseKey) (hb : ∀ b ∈ key.bytes, b < 256) :
    HexFormat.deserialize (HexFormat.serialize key) = some key.get_bytes := by
  simp only [HexFormat.deserialize, HexFormat.serialize, LicenseKey.get_bytes]
  exact hex_decode_encode key.bytes hb

/-- Witness for C8 at a concrete 10-byte (empty-payload) key. -/
theorem hex_roundtrip_witness :
    HexFormat.deserialize (HexFormat.serialize
        (LicenseKey.new [0, 0, 0, 0, 0, 0, 48, 57, 178, 206]))
      = some (LicenseKey.new [0, 0, 0, 0, 0, 0, 48, 57, 178, 206]).get_bytes :=
  hex_roundtrip (LicenseKey.new [0, 0, 0, 0, 0, 0, 48, 57, 178, 206])
    (by decide)

/-- A successful hex decode forces well-formed input: even length and
only hex-digit bytes. -/
lemma hex_decode_some_wf (input : List Nat) (bs : List Nat)
    (h : hex_decode input = some bs) : wellFormedHex input := by
  induction input using hex_decode.induct generalizing bs with
  | case1 =>
    exact ⟨rfl, by simp⟩
  | case2 x =>
    rw [hex_decode] at h
    exact absurd h (by simp)
  | case3 hi lo rest vhi vlo brest hrest hlo hhi ih =>
    obtain ⟨heven, hdigits⟩ := ih brest hrest
    refine ⟨by simp [Nat.add_mod, heven], ?_⟩
    intro b hbmem
    simp only [List.mem_cons] at hbmem
    rcases hbmem with hbmem | hbmem | hbmem
    · simp [hbmem, hhi]
    · simp [hbmem, hlo]
    · exact hdigits b hbmem
  | case4 hi lo rest hfail ih =>
    exfalso
    rw [hex_decode] at h
    rcases hhi : hex_digit_val hi with _ | vhi <;> rw [hhi] at h
    · exact absurd h (by simp)
    rcases hlo : hex_digit_val lo with _ | vlo <;> rw [hlo] at h
    · exact absurd h (by simp)
    rcases hrest : hex_decode rest with _ | brest <;> rw [hrest] at h
    · exact absurd h (by simp)
    exact hfail vhi vlo brest hhi hlo hrest

/-- Claim C5: for every boundary-text input that is not well-formed hex,
parsing propagates a decode failure (modelled as `none`) before any
`LicenseKey` value exists, so such input is never mapped to a
verification `Status`, in particular never silently to `Invalid`. -/
theorem parse_malformed_fails (input : List Nat)
    (h : ¬ wellFormedHex input) : LicenseKey.parse input = none := by
  simp only [LicenseKey.parse, HexFormat.deserialize]
  rcases hdec : hex_decode input with _ | bs
  · rfl
  · exact absurd (hex_decode_some_wf input bs hdec) h

/-- Witness for C5 on the single-byte input `"g"` (ASCII 103), which is
malformed both by odd length and by the non-hex digit. -/
theorem parse_malformed_fails_witness :
    LicenseKey.parse [103] = none :=
  parse_malformed_fails [103] (by decide)

/-- Well-formed hex input always decodes, to half as many bytes. -/
lemma hex_decode_wf_some (input : List Nat) (h : wellFormedHex input) :
    ∃ bs, hex_decode input = some bs ∧ bs.length = input.length / 2 := by
  induction input using hex_decode.induct with
  | case1 =>
    exact ⟨[], rfl, rfl⟩
  | case2 x =>
    exact absurd h.1 (by simp)
  | case3 hi lo rest vhi vlo brest hrest hlo hhi ih =>
    obtain ⟨bs, hbs, hblen⟩ := ih
      ⟨by have h1 := h.1; simp only [List.length_cons] at h1 ⊢; omega,
       fun b hb => h.2 b (by simp [hb])⟩
    refine ⟨(vhi * 16 + vlo) :: bs, ?_, ?_⟩
    · rw [hex_decode, hhi, hlo, hbs]
    · simp only [List.length_cons, hblen]
      omega
  | case4 hi lo rest hfail ih =>
    exfalso
    have hhi : (hex_digit_val hi).isSome = true := h.2 hi (by simp)
    have hlo : (hex_digit_val lo).isSome = true := h.2 lo (by simp)
    obtain ⟨vhi, hvhi⟩ := Option.isSome_iff_exists.mp hhi
    obtain ⟨vlo, hvlo⟩ := Option.isSome_iff_exists.mp hlo
    obtain ⟨bs, hbs, _⟩ := ih
      ⟨by have h1 := h.1; simp only [List.length_cons] at h1 ⊢; omega,
       fun b hb => h.2 b (by simp [hb])⟩
    exact hfail vhi vlo bs hvhi hvlo hbs

/-- Claim C9: `parse` performs no structural validation — every
well-formed even-length hex input (including the empty one) yields a
`LicenseKey` with half as many bytes, even below the 10-byte minimum; in
particular the empty input yields a 0-byte key, on which `verify` is not
total (the checked model hits the `len - 2` panic for every verifier). -/
theorem parse_no_validation :
    (∀ input : List Nat, wellFormedHex input →
      ∃ k, LicenseKey.parse input = some k ∧
        k.bytes.length = input.length / 2) ∧
    LicenseKey.parse [] = some (LicenseKey.new []) ∧
    (LicenseKey.new []).bytes.length < 10 ∧
    ∀ v : Verifier, v.verify_checked (LicenseKey.new []) = none := by
  refine ⟨?_, rfl, by decide, fun v => rfl⟩
  intro input hwf
  obtain ⟨bs, hbs, hblen⟩ := hex_decode_wf_some input hwf
  exact ⟨LicenseKey.new bs, by simp [LicenseKey.parse, HexFormat.deserialize,
    hbs], by simpa [LicenseKey.new] using hblen⟩

/-- Witness for C9: the well-formed input `"00"` (ASCII 48 48) parses to
a one-byte key. -/
theorem parse_no_validation_witness :
    ∃ k, LicenseKey.parse [48, 48] = some k ∧
      k.bytes.length = [48, 48].length / 2 :=
  parse_no_validation.1 [48, 48] (by decide)
